import Mathlib

/-!
Verification development for the spreadsheet-backed election bot (`bot.py`).

The spreadsheet tables are modelled at the level at which the program reads
them: `get_all_records` turns each data row into a mapping from header names
to cell values, where a cell holding a numeral is read back as an integer and
every other cell as a string.  A `Record` is such a mapping (an association
list, first key wins, exactly like a Python dict built once per row), and a
table is a `List Record` in sheet row order.  Python string helpers
(`str`, `.lower()`, `.upper()`) are embedded as explicit functions on
Lean strings.  Code paths that raise a Python exception (e.g. comparing a
string cell with an integer cost) are embedded as `Option`-valued functions
returning `none`, since the bot catches every exception at the handler
boundary and performs no further writes.
-/

set_option autoImplicit false

/-- A spreadsheet cell as `get_all_records` returns it: an integer for
numeral cells, otherwise a string. -/
inductive Value where
  | int (n : Int)
  | str (s : String)
deriving DecidableEq, Repr

/-- A data row read back as a header-to-value mapping (a Python dict). -/
abbrev Record := List (String × Value)

/-- `record.get(k, d)`: first value stored under key `k`, else the default. -/
def Record.getD (r : Record) (k : String) (d : Value) : Value :=
  match r with
  | [] => d
  | (k', v) :: rest => if k' == k then v else Record.getD rest k d

/-- Overwrite the value stored under key `k` (the effect of `update_cell` on
the column headed `k`, as seen by the next `get_all_records` read). -/
def Record.set (r : Record) (k : String) (v : Value) : Record :=
  match r with
  | [] => [(k, v)]
  | (k', v') :: rest => if k' == k then (k, v) :: rest else (k', v') :: Record.set rest k v

/-- Python `str()` applied to a cell value. -/
def pyStr (v : Value) : String :=
  match v with
  | .int n => toString n
  | .str s => s

/-- Python `str.lower()` (ASCII case folding, as used on sheet values). -/
def pyLower (s : String) : String := ⟨s.data.map Char.toLower⟩

/-- Python `str.upper()`. -/
def pyUpper (s : String) : String := ⟨s.data.map Char.toUpper⟩

/-- Python `str(b)` for a boolean. -/
def pyStrBool : Bool → String
  | true => "True"
  | false => "False"

theorem Record.getD_set_self (r : Record) (k : String) (v d : Value) :
    (r.set k v).getD k d = v := by
  induction r with
  | nil => simp [Record.set, Record.getD]
  | cons p rest ih =>
    obtain ⟨k', v'⟩ := p
    by_cases h : k' == k
    · simp [Record.set, Record.getD, h]
    · simp only [Record.set, Record.getD, h, if_neg, Bool.false_eq_true, if_false]
      simpa [Record.getD, h] using ih

theorem Record.getD_set_ne (r : Record) (k k' : String) (v d : Value) (h : k' ≠ k) :
    (r.set k v).getD k' d = r.getD k' d := by
  induction r with
  | nil =>
    simp only [Record.set, Record.getD]
    have : (k == k') = false := by
      simp [beq_eq_false_iff_ne]
      exact fun hk => h hk.symm
    simp [this]
  | cons p rest ih =>
    obtain ⟨k₀, v₀⟩ := p
    by_cases h₀ : k₀ == k
    · have hk : k = k₀ := (eq_of_beq h₀).symm
      have : (k == k') = false := by
        simp [beq_eq_false_iff_ne]
        exact fun hk' => h hk'.symm
      by_cases h₁ : k₀ == k'
      · exfalso; exact h ((eq_of_beq h₁).symm.trans hk.symm ▸ (eq_of_beq h₁).symm ▸ rfl) |>.elim
      · simp [Record.set, Record.getD, h₀, this, h₁]
    · simp [Record.set, Record.getD, h₀, ih]

/-! ## CycleState state (`get_current_cycle`, `update_signups_status`)

The Cycles sheet keeps the cycle singleton in the fixed cells G2 (year),
G3 (signups-open flag) and G4 (phase).  `gspread`'s `acell(...).value` is
`None` for an empty cell, else the cell text, modelled as `Option String`. -/

structure CycleCells where
  g2 : Option String
  g3 : Option String
  g4 : Option String
deriving DecidableEq, Repr

structure CycleState where
  year : Int
  signups_open : Bool
  phase : String
deriving DecidableEq, Repr

/-- `get_current_cycle()`.  `int(g2.value or 1990)` falls back to 1990 on an
empty cell and raises on a non-numeral (→ `none`); `g3.value.lower()` raises
`AttributeError` on an empty cell (→ `none`); `g4.value or "Primary"` falls
back to `"Primary"`. -/
def get_current_cycle (cells : CycleCells) : Option CycleState :=
  let y? : Option Int :=
    match cells.g2 with
    | none => some 1990
    | some s => if s = "" then some 1990 else s.toInt?
  match y?, cells.g3 with
  | some y, some s3 =>
      some { year := y
             signups_open := pyLower s3 == "true"
             phase := match cells.g4 with
                      | none => "Primary"
                      | some s4 => if s4 = "" then "Primary" else s4 }
  | _, _ => none

/-- `update_signups_status(status)`: writes `str(status).upper()` to G3. -/
def update_signups_status (cells : CycleCells) (status : Bool) : CycleCells :=
  { cells with g3 := some (pyUpper (pyStrBool status)) }

/-- C10: after `update_signups_status b`, a successful `get_current_cycle`
reads `signups_open = b`: the write stores `"TRUE"`/`"FALSE"` and the read
compares the lowercased cell with `"true"`. -/
theorem c10_signups_status_roundtrip (cells : CycleCells) (b : Bool) (c : CycleState)
    (h : get_current_cycle (update_signups_status cells b) = some c) :
    c.signups_open = b := by
  unfold get_current_cycle update_signups_status at h
  cases b <;>
    · simp only at h
      rcases hg2 : cells.g2 with _ | s
      · rw [hg2] at h
        simp only at h
        cases h
        rfl
      · rw [hg2] at h
        by_cases hs : s = ""
        · simp only [hs, if_pos rfl] at h
          cases h
          rfl
        · simp only [if_neg hs] at h
          rcases hti : s.toInt? with _ | n <;> rw [hti] at h
          · cases h
          · simp only at h
            cases h
            rfl

/-- Witness for C10 at a concrete cell state. -/
theorem c10_signups_status_roundtrip_witness :
    get_current_cycle (update_signups_status ⟨none, some "idle", none⟩ true) =
      some { year := 1990, signups_open := true, phase := "Primary" } ∧
    ({ year := 1990, signups_open := true, phase := "Primary" } : CycleState).signups_open = true := by
  refine ⟨by decide, ?_⟩
  exact c10_signups_status_roundtrip ⟨none, some "idle", none⟩ true _ (by decide)

/-! ## Signup flow (`signup`, `seat_callback`, `add_signup`)

`add_signup` appends exactly ten cells; read back under the canonical
`All Signups` header row they form the mapping below.  There is no `State`
column.  (A numeral name cell would read back as an integer; this is
immaterial to every property below, which depend only on the key set and
the values written by the program itself.) -/

/-- The record produced by reading back a row appended by `add_signup`. -/
def signupRecord (uidVal : Value) (name : String) (seatId : Value) (party phase : String)
    (office : Value) : Record :=
  [("User ID", uidVal), ("Name", .str name), ("Seat ID", seatId), ("Party", .str party),
   ("Phase", .str phase), ("Office", office), ("Corruption", .int 0), ("Stamina", .int 100),
   ("Points", .int 0), ("Winner", .str "")]

/-- The `All Signups` duplicate test used by both `signup` and
`seat_callback`: same user id and a `Winner` cell that is neither
`"Withdrawn"` nor `"Loser"`. -/
def nonTerminalMatch (uid : String) (r : Record) : Bool :=
  pyStr (r.getD "User ID" (.str "")) == uid &&
    !(r.getD "Winner" (.str "") == .str "Withdrawn" || r.getD "Winner" (.str "") == .str "Loser")

/-- The `All Winners` duplicate test used by both `signup` and
`seat_callback`: any record with the same user id. -/
def uidMatch (uid : String) (r : Record) : Bool :=
  pyStr (r.getD "User ID" (.str "")) == uid

inductive SignupPre where
  | dupSignups
  | dupWinners
  | pass
deriving DecidableEq, Repr

/-- The duplicate pre-check the `signup` command runs before listing seats
(the cycle and seat checks only run when this passes). -/
def signupPrecheck (signupsRecords winnersRecords : List Record) (uid : String) : SignupPre :=
  if signupsRecords.any (nonTerminalMatch uid) then .dupSignups
  else if winnersRecords.any (uidMatch uid) then .dupWinners
  else .pass

inductive SeatCbOutcome where
  | invalidSeat
  | dupSignups
  | dupWinners
  | keyError
  | signedUp
deriving DecidableEq, Repr

/-- `seat_callback`: looks the chosen seat up again, re-runs both duplicate
checks, and only then appends the new row via `add_signup`.  Returns the
outcome together with the resulting `All Signups` table.
(`selected_seat["Office"]` raises `KeyError` when the seat row has no
`Office` key; nothing is appended in that case either.) -/
def seat_callback (seats : List Record) (seatId : Value)
    (signupsRecords winnersRecords : List Record)
    (uid : String) (uidVal : Value) (name party phase : String) :
    SeatCbOutcome × List Record :=
  match seats.find? (fun s => s.getD "Seat ID" (.str "") == seatId) with
  | none => (.invalidSeat, signupsRecords)
  | some sel =>
    if signupsRecords.any (nonTerminalMatch uid) then (.dupSignups, signupsRecords)
    else if winnersRecords.any (uidMatch uid) then (.dupWinners, signupsRecords)
    else
      match sel.find? (fun p => p.1 == "Office") with
      | none => (.keyError, signupsRecords)
      | some office =>
          (.signedUp,
           signupsRecords ++ [signupRecord uidVal name seatId party phase office.2])

/-- C2: a user who already has a non-terminal record (`Winner` not in
{`Withdrawn`, `Loser`}) in either registry is rejected by the `signup`
pre-check, and is rejected again by the re-check `seat_callback` runs after
seat selection, so no row is appended to `All Signups`. -/
theorem c2_duplicate_signup_rejected
    (signupsRecords winnersRecords seats : List Record) (seatId : Value)
    (uid : String) (uidVal : Value) (name party phase : String)
    (hdup : (∃ r ∈ signupsRecords, nonTerminalMatch uid r = true) ∨
            (∃ r ∈ winnersRecords, uidMatch uid r = true ∧
               r.getD "Winner" (.str "") ≠ .str "Withdrawn" ∧
               r.getD "Winner" (.str "") ≠ .str "Loser")) :
    signupPrecheck signupsRecords winnersRecords uid ≠ .pass ∧
    (seat_callback seats seatId signupsRecords winnersRecords uid uidVal name party phase).1 ≠
      .signedUp ∧
    (seat_callback seats seatId signupsRecords winnersRecords uid uidVal name party phase).2 =
      signupsRecords := by
  have hany : signupsRecords.any (nonTerminalMatch uid) = true ∨
      winnersRecords.any (uidMatch uid) = true := by
    rcases hdup with h | h
    · exact Or.inl (List.any_eq_true.mpr h)
    · exact Or.inr (List.any_eq_true.mpr (by
        obtain ⟨r, hr, hm, -, -⟩ := h
        exact ⟨r, hr, hm⟩))
  constructor
  · unfold signupPrecheck
    rcases hs : signupsRecords.any (nonTerminalMatch uid) with _ | _
    · rcases hany with h | h
      · rw [hs] at h; cases h
      · simp [h]
    · simp
  · unfold seat_callback
    rcases hfind : seats.find? (fun s => s.getD "Seat ID" (.str "") == seatId) with _ | sel
    · simp [hfind]
    · rcases hs : signupsRecords.any (nonTerminalMatch uid) with _ | _
      · rcases hany with h | h
        · rw [hs] at h; cases h
        · simp [hfind, hs, h]
      · simp [hfind, hs]

/-- Witness for C2: a user with an active signup is rejected and the table
is unchanged. -/
theorem c2_duplicate_signup_rejected_witness :
    (∃ r ∈ [signupRecord (.int 42) "Ava" (.str "SEN-AU-1") "Independent" "Primary"
        (.str "Senate")], nonTerminalMatch "42" r = true) ∧
    signupPrecheck [signupRecord (.int 42) "Ava" (.str "SEN-AU-1") "Independent" "Primary"
        (.str "Senate")] [] "42" ≠ .pass ∧
    (seat_callback [] (.str "SEN-AU-2")
        [signupRecord (.int 42) "Ava" (.str "SEN-AU-1") "Independent" "Primary" (.str "Senate")]
        [] "42" (.int 42) "Ava" "Independent" "Primary").2 =
      [signupRecord (.int 42) "Ava" (.str "SEN-AU-1") "Independent" "Primary" (.str "Senate")] := by
  refine ⟨⟨_, List.mem_singleton.mpr rfl, by decide⟩, ?_, ?_⟩
  · exact (c2_duplicate_signup_rejected _ _ [] (.str "SEN-AU-2") "42" (.int 42) "Ava"
      "Independent" "Primary" (Or.inl ⟨_, List.mem_singleton.mpr rfl, by decide⟩)).1
  · exact (c2_duplicate_signup_rejected _ _ [] (.str "SEN-AU-2") "42" (.int 42) "Ava"
      "Independent" "Primary" (Or.inl ⟨_, List.mem_singleton.mpr rfl, by decide⟩)).2.2

/-! ## Point-earning actions (`rally`, `canvassing`)

Both commands scan the phase-appropriate table for the first row whose
`User ID` matches the caller and whose `Winner` cell is not `"Withdrawn"`.
On that row they check stamina against the action's cost, then write the
clamped stamina (column 8) and the increased points (column 9) back.  The
random draw `random.randint(lo, hi)` is passed in as the `drawn` argument;
the caller-side theorems carry its documented bounds as hypotheses. -/

/-- Row-match test used by the action scan. -/
def actMatch (uid : String) (r : Record) : Bool :=
  pyStr (r.getD "User ID" (.str "")) == uid &&
    !(r.getD "Winner" (.str "") == .str "Withdrawn")

inductive ActionOutcome where
  | notSignedUp
  | insufficientStamina
  | typeError
  | success (gained newStamina : Int)
deriving DecidableEq, Repr

/-- The shared body of `rally` and `canvassing`: outcome plus resulting
table.  A string `Stamina` or `Points` cell would raise a `TypeError`
before any write, reported here as `typeError` with the table unchanged. -/
def performAction (uid : String) (cost drawn : Int) : List Record → ActionOutcome × List Record
  | [] => (.notSignedUp, [])
  | r :: rest =>
    if actMatch uid r then
      match r.getD "Stamina" (.int 0) with
      | .str _ => (.typeError, r :: rest)
      | .int s =>
        if s < cost then (.insufficientStamina, r :: rest)
        else
          match r.getD "Points" (.int 0) with
          | .str _ => (.typeError, r :: rest)
          | .int p =>
            let st := max (s - cost) 0
            (.success drawn st,
             ((r.set "Stamina" (.int st)).set "Points" (.int (p + drawn))) :: rest)
    else
      let res := performAction uid cost drawn rest
      (res.1, r :: res.2)

/-- `/rally`: cost 10, draw from `[5, 15]`. -/
def rally (recs : List Record) (uid : String) (drawn : Int) : ActionOutcome × List Record :=
  performAction uid 10 drawn recs

/-- `/canvassing`: cost 5, draw from `[3, 10]`. -/
def canvassing (recs : List Record) (uid : String) (drawn : Int) : ActionOutcome × List Record :=
  performAction uid 5 drawn recs

theorem performAction_append_of_no_match (uid : String) (cost drawn : Int)
    (pre l : List Record) (hpre : ∀ x ∈ pre, actMatch uid x = false) :
    performAction uid cost drawn (pre ++ l) =
      ((performAction uid cost drawn l).1, pre ++ (performAction uid cost drawn l).2) := by
  induction pre with
  | nil => simp
  | cons r rest ih =>
    have hr : actMatch uid r = false := hpre r (by simp)
    have ih' := ih (fun x hx => hpre x (by simp [hx]))
    simp only [List.cons_append, performAction, hr, Bool.false_eq_true, if_false,
      List.append_eq, ih']

theorem performAction_success (uid : String) (cost drawn : Int)
    (pre post : List Record) (r : Record) (s p : Int)
    (hpre : ∀ x ∈ pre, actMatch uid x = false) (hr : actMatch uid r = true)
    (hs : r.getD "Stamina" (.int 0) = .int s) (hp : r.getD "Points" (.int 0) = .int p)
    (hcost : cost ≤ s) :
    performAction uid cost drawn (pre ++ r :: post) =
      (.success drawn (max (s - cost) 0),
       pre ++ ((r.set "Stamina" (.int (max (s - cost) 0))).set "Points" (.int (p + drawn))) :: post) := by
  rw [performAction_append_of_no_match uid cost drawn pre _ hpre]
  have : performAction uid cost drawn (r :: post) =
      (.success drawn (max (s - cost) 0),
       ((r.set "Stamina" (.int (max (s - cost) 0))).set "Points" (.int (p + drawn))) :: post) := by
    simp only [performAction, hr, if_pos, hs, hp]
    rw [if_neg (by omega)]
  rw [this]

/-- C3: a successful rally (cost 10, draw in `[5, 15]`) or canvassing
(cost 5, draw in `[3, 10]`) on a row with enough stamina leaves
`Stamina = max(0, previous − cost)` (never negative) and
`Points = previous + drawn`, with the drawn value inside the documented
range. -/
theorem c3_action_updates (recs pre post : List Record) (r : Record)
    (uid : String) (drawn s p : Int)
    (hsplit : recs = pre ++ r :: post)
    (hpre : ∀ x ∈ pre, actMatch uid x = false) (hr : actMatch uid r = true)
    (hs : r.getD "Stamina" (.int 0) = .int s) (hp : r.getD "Points" (.int 0) = .int p) :
    (10 ≤ s → 5 ≤ drawn → drawn ≤ 15 →
      rally recs uid drawn =
        (.success drawn (max (s - 10) 0),
         pre ++ ((r.set "Stamina" (.int (max (s - 10) 0))).set "Points" (.int (p + drawn))) :: post) ∧
      ((r.set "Stamina" (.int (max (s - 10) 0))).set "Points" (.int (p + drawn))).getD
          "Stamina" (.int 0) = .int (max (s - 10) 0) ∧
      ((r.set "Stamina" (.int (max (s - 10) 0))).set "Points" (.int (p + drawn))).getD
          "Points" (.int 0) = .int (p + drawn) ∧
      0 ≤ max (s - 10) 0 ∧ 5 ≤ drawn ∧ drawn ≤ 15) ∧
    (5 ≤ s → 3 ≤ drawn → drawn ≤ 10 →
      canvassing recs uid drawn =
        (.success drawn (max (s - 5) 0),
         pre ++ ((r.set "Stamina" (.int (max (s - 5) 0))).set "Points" (.int (p + drawn))) :: post) ∧
      ((r.set "Stamina" (.int (max (s - 5) 0))).set "Points" (.int (p + drawn))).getD
          "Stamina" (.int 0) = .int (max (s - 5) 0) ∧
      ((r.set "Stamina" (.int (max (s - 5) 0))).set "Points" (.int (p + drawn))).getD
          "Points" (.int 0) = .int (p + drawn) ∧
      0 ≤ max (s - 5) 0 ∧ 3 ≤ drawn ∧ drawn ≤ 10) := by
  subst hsplit
  constructor
  · intro h10 hlo hhi
    refine ⟨performAction_success uid 10 drawn pre post r s p hpre hr hs hp h10, ?_, ?_, ?_, hlo, hhi⟩
    · rw [Record.getD_set_ne _ _ _ _ _ (by decide), Record.getD_set_self]
    · rw [Record.getD_set_self]
    · exact le_max_right _ _
  · intro h5 hlo hhi
    refine ⟨performAction_success uid 5 drawn pre post r s p hpre hr hs hp h5, ?_, ?_, ?_, hlo, hhi⟩
    · rw [Record.getD_set_ne _ _ _ _ _ (by decide), Record.getD_set_self]
    · rw [Record.getD_set_self]
    · exact le_max_right _ _

/-- Witness for C3: a fresh signup (stamina 100, points 0) rallies for a
draw of 7. -/
theorem c3_action_updates_witness :
    rally [signupRecord (.int 42) "Ava" (.str "SEN-AU-1") "Independent" "Primary" (.str "Senate")]
        "42" 7 =
      (.success 7 90,
       [((signupRecord (.int 42) "Ava" (.str "SEN-AU-1") "Independent" "Primary"
           (.str "Senate")).set "Stamina" (.int 90)).set "Points" (.int 7)]) ∧
    (((signupRecord (.int 42) "Ava" (.str "SEN-AU-1") "Independent" "Primary"
        (.str "Senate")).set "Stamina" (.int 90)).set "Points" (.int 7)).getD "Stamina" (.int 0) =
      .int 90 := by
  have h := (c3_action_updates
      [signupRecord (.int 42) "Ava" (.str "SEN-AU-1") "Independent" "Primary" (.str "Senate")]
      [] [] (signupRecord (.int 42) "Ava" (.str "SEN-AU-1") "Independent" "Primary" (.str "Senate"))
      "42" 7 100 0 rfl (by intro x hx; cases hx) (by decide) (by decide) (by decide)).1
      (by decide) (by decide) (by decide)
  exact ⟨by simpa using h.1, by simpa using h.2.1⟩

/-- C4: an action fails with "not signed up" when no row matches the caller
with `Winner ≠ "Withdrawn"`, and with "insufficient stamina" when the first
matching row's stamina is below the cost; in both cases the table is
untouched. -/
theorem c4_action_failures (recs : List Record) (uid : String) (cost drawn : Int) :
    ((∀ x ∈ recs, actMatch uid x = false) →
      performAction uid cost drawn recs = (.notSignedUp, recs)) ∧
    (∀ pre r post s, recs = pre ++ r :: post →
      (∀ x ∈ pre, actMatch uid x = false) → actMatch uid r = true →
      r.getD "Stamina" (.int 0) = .int s → s < cost →
      performAction uid cost drawn recs = (.insufficientStamina, recs)) := by
  constructor
  · intro hall
    induction recs with
    | nil => rfl
    | cons r rest ih =>
      have hr : actMatch uid r = false := hall r (by simp)
      have := ih (fun x hx => hall x (by simp [hx]))
      simp only [performAction, hr, Bool.false_eq_true, if_false, this]
  · intro pre r post s hsplit hpre hr hs hlt
    subst hsplit
    rw [performAction_append_of_no_match uid cost drawn pre _ hpre]
    have : performAction uid cost drawn (r :: post) = (.insufficientStamina, r :: post) := by
      simp only [performAction, hr, if_pos, hs]
      rw [if_pos hlt]
    rw [this]

/-- Witness for C4: the two failure modes at concrete tables. -/
theorem c4_action_failures_witness :
    performAction "99" 10 7
        [signupRecord (.int 42) "Ava" (.str "SEN-AU-1") "Independent" "Primary" (.str "Senate")] =
      (.notSignedUp,
       [signupRecord (.int 42) "Ava" (.str "SEN-AU-1") "Independent" "Primary" (.str "Senate")]) ∧
    performAction "42" 10 7
        [(signupRecord (.int 42) "Ava" (.str "SEN-AU-1") "Independent" "Primary"
            (.str "Senate")).set "Stamina" (.int 3)] =
      (.insufficientStamina,
       [(signupRecord (.int 42) "Ava" (.str "SEN-AU-1") "Independent" "Primary"
           (.str "Senate")).set "Stamina" (.int 3)]) := by
  constructor
  · exact (c4_action_failures _ "99" 10 7).1 (by decide)
  · exact (c4_action_failures _ "42" 10 7).2 []
      ((signupRecord (.int 42) "Ava" (.str "SEN-AU-1") "Independent" "Primary"
          (.str "Senate")).set "Stamina" (.int 3)) [] 3 rfl
      (by intro x hx; cases hx) (by decide) (by decide) (by decide)

/-! ## Polling (`poll`)

`poll` filters the phase-appropriate table, sums the points and prints each
candidate's exact share `points / total * 100` (the `:.1f` display rounding
is a formatting concern; the share itself is modelled exactly in `ℚ`). -/

/-- The nation-scope filter: matching phase and not withdrawn. -/
def pollFilterNation (phase : String) (r : Record) : Bool :=
  r.getD "Phase" (.str "") == .str phase &&
    !(r.getD "Winner" (.str "") == .str "Withdrawn")

/-- The state-scope filter adds a case-insensitive `State` match. -/
def pollFilterState (scope phase : String) (r : Record) : Bool :=
  pyLower (pyStr (r.getD "State" (.str ""))) == pyLower scope && pollFilterNation phase r

/-- `sum(c.get("Points", 0) for c in candidates)`; `none` models the
`TypeError` raised when a `Points` cell is a non-numeral string. -/
def sumPoints : List Record → Option Int
  | [] => some 0
  | r :: rest =>
    match r.getD "Points" (.int 0), sumPoints rest with
    | .int n, some t => some (n + t)
    | _, _ => none

/-- The points of a record, as an integer (only used on records whose
`Points` cell is an integer). -/
def pointsD (r : Record) : Int :=
  match r.getD "Points" (.int 0) with
  | .int n => n
  | .str _ => 0

inductive PollOutcome where
  | noCandidates
  | noPollingData
  | results (entries : List (String × String × ℚ))
deriving DecidableEq, Repr

/-- Build the reported entries: name, party and exact percentage share. -/
def pollEntries (cands : List Record) (total : Int) : List (String × String × ℚ) :=
  cands.map fun c =>
    (pyStr (c.getD "Name" (.str "")), pyStr (c.getD "Party" (.str "")),
     (pointsD c : ℚ) / (total : ℚ) * 100)

/-- `/poll`: the `"nation"` branch when the lowercased scope is `"nation"`,
else the state branch.  `none` models a `TypeError` from a string `Points`
cell. -/
def poll (scope phase : String) (recs : List Record) : Option PollOutcome :=
  if pyLower scope == "nation" then
    let cands := recs.filter (pollFilterNation phase)
    if cands.isEmpty then some .noCandidates
    else
      match sumPoints cands with
      | none => none
      | some total =>
        if total = 0 then some .noPollingData
        else some (.results (pollEntries cands total))
  else
    let cands := recs.filter (pollFilterState scope phase)
    if cands.isEmpty then some .noCandidates
    else
      match sumPoints cands with
      | none => none
      | some total =>
        if total = 0 then some .noPollingData
        else some (.results (pollEntries cands total))

theorem sumPoints_eq_sum (l : List Record) (t : Int) (h : sumPoints l = some t) :
    (l.map pointsD).sum = t := by
  induction l generalizing t with
  | nil =>
    simp only [sumPoints] at h
    cases h
    simp
  | cons r rest ih =>
    unfold sumPoints at h
    rcases hg : r.getD "Points" (.int 0) with n | s <;> rw [hg] at h
    · rcases hrest : sumPoints rest with _ | t' <;> rw [hrest] at h
      · cases h
      · simp only at h
        cases h
        simp [pointsD, hg, ih t' hrest]
    · cases h

theorem sumPoints_isSome (l : List Record)
    (h : ∀ r ∈ l, ∃ n, r.getD "Points" (.int 0) = Value.int n) :
    ∃ t, sumPoints l = some t := by
  induction l with
  | nil => exact ⟨0, rfl⟩
  | cons r rest ih =>
    obtain ⟨n, hn⟩ := h r (by simp)
    obtain ⟨t, ht⟩ := ih (fun x hx => h x (by simp [hx]))
    exact ⟨n + t, by unfold sumPoints; rw [hn, ht]⟩

theorem sum_map_share (total : Int) (l : List Record) :
    (l.map (fun c => (pointsD c : ℚ) / (total : ℚ) * 100)).sum =
      ((l.map pointsD).sum : ℚ) / (total : ℚ) * 100 := by
  induction l with
  | nil => simp
  | cons c rest ih =>
    simp only [List.map_cons, List.sum_cons, ih]
    rw [Int.cast_add]
    ring

theorem pollEntries_share_sum (cands : List Record) (total : Int)
    (htotal : (cands.map pointsD).sum = total) (hne : total ≠ 0) :
    ((pollEntries cands total).map (fun e => e.2.2)).sum = 100 := by
  have hmap : (pollEntries cands total).map (fun e => e.2.2) =
      cands.map (fun c => (pointsD c : ℚ) / (total : ℚ) * 100) := by
    simp [pollEntries]
  rw [hmap, sum_map_share, htotal]
  have hq : (total : ℚ) ≠ 0 := Int.cast_ne_zero.mpr hne
  field_simp

theorem poll_nation_eval (phase : String) (recs : List Record) (T : Int)
    (hT : sumPoints (recs.filter (pollFilterNation phase)) = some T) :
    poll "nation" phase recs =
      if recs.filter (pollFilterNation phase) = [] then some .noCandidates
      else if T = 0 then some .noPollingData
      else some (.results (pollEntries (recs.filter (pollFilterNation phase)) T)) := by
  unfold poll
  simp only [show (pyLower "nation" == "nation") = true from by decide, if_true]
  rw [hT]
  by_cases hempty : recs.filter (pollFilterNation phase) = []
  · rw [if_pos hempty,
      if_pos (show (recs.filter (pollFilterNation phase)).isEmpty = true by rw [hempty]; rfl)]
  · rw [if_neg hempty,
      if_neg (show ¬ (recs.filter (pollFilterNation phase)).isEmpty = true from fun h =>
        hempty (List.isEmpty_iff.mp h))]

/-- C5: `poll("nation")` includes exactly the rows matching the current
phase whose `Winner` cell is not `"Withdrawn"`; it reports "no candidates"
iff that set is empty and "no polling data" iff the set is non-empty with
total points zero (never dividing by zero); otherwise each included row is
reported with share `points / total * 100`, and the shares sum to exactly
100. -/
theorem c5_poll_nation (phase : String) (recs : List Record)
    (hpts : ∀ r ∈ recs.filter (pollFilterNation phase),
      ∃ n, r.getD "Points" (.int 0) = Value.int n) :
    (∀ r, r ∈ recs.filter (pollFilterNation phase) ↔
      (r ∈ recs ∧ r.getD "Phase" (.str "") = .str phase ∧
       r.getD "Winner" (.str "") ≠ .str "Withdrawn")) ∧
    (poll "nation" phase recs = some .noCandidates ↔
      recs.filter (pollFilterNation phase) = []) ∧
    (poll "nation" phase recs = some .noPollingData ↔
      (recs.filter (pollFilterNation phase) ≠ [] ∧
       ((recs.filter (pollFilterNation phase)).map pointsD).sum = 0)) ∧
    (∀ es, poll "nation" phase recs = some (.results es) →
      es = pollEntries (recs.filter (pollFilterNation phase))
             (((recs.filter (pollFilterNation phase)).map pointsD).sum) ∧
      (es.map (fun e => e.2.2)).sum = 100) := by
  obtain ⟨T, hT⟩ := sumPoints_isSome _ hpts
  have hTsum := sumPoints_eq_sum _ T hT
  have heval := poll_nation_eval phase recs T hT
  refine ⟨?_, ?_, ?_, ?_⟩
  · intro r
    rw [List.mem_filter]
    unfold pollFilterNation
    constructor
    · rintro ⟨hmem, hcond⟩
      rw [Bool.and_eq_true, beq_iff_eq, Bool.not_eq_true', beq_eq_false_iff_ne] at hcond
      exact ⟨hmem, hcond.1, hcond.2⟩
    · rintro ⟨hmem, h₁, h₂⟩
      refine ⟨hmem, ?_⟩
      rw [Bool.and_eq_true, beq_iff_eq, Bool.not_eq_true', beq_eq_false_iff_ne]
      exact ⟨h₁, h₂⟩
  · rw [heval]
    by_cases hempty : recs.filter (pollFilterNation phase) = []
    · simp [hempty]
    · rw [if_neg hempty]
      by_cases hz : T = 0 <;> simp [hz, hempty]
  · rw [heval, hTsum]
    by_cases hempty : recs.filter (pollFilterNation phase) = []
    · simp [hempty]
    · rw [if_neg hempty]
      by_cases hz : T = 0 <;> simp [hz, hempty]
  · intro es hes
    rw [heval] at hes
    by_cases hempty : recs.filter (pollFilterNation phase) = []
    · rw [if_pos hempty] at hes; cases hes
    · rw [if_neg hempty] at hes
      by_cases hz : T = 0
      · rw [if_pos hz] at hes; cases hes
      · rw [if_neg hz] at hes
        have hinj : PollOutcome.results (pollEntries
            (recs.filter (pollFilterNation phase)) T) = .results es := Option.some.inj hes
        have hesq : es = pollEntries (recs.filter (pollFilterNation phase)) T :=
          (PollOutcome.results.inj hinj).symm
        rw [hesq, hTsum]
        exact ⟨rfl, pollEntries_share_sum _ T hTsum hz⟩


/-- Concrete table for the C5 witness: two Primary candidates with 30 and
70 points. -/
def c5recs : List Record :=
  [[("User ID", .int 1), ("Name", .str "A"), ("Party", .str "Democrats"),
    ("Phase", .str "Primary"), ("Points", .int 30), ("Winner", .str "")],
   [("User ID", .int 2), ("Name", .str "B"), ("Party", .str "Democrats"),
    ("Phase", .str "Primary"), ("Points", .int 70), ("Winner", .str "")]]

/-- Witness for C5: both candidates are included and their shares sum to
100. -/
theorem c5_poll_nation_witness :
    poll "nation" "Primary" c5recs = some (.results (pollEntries c5recs 100)) ∧
    ((pollEntries c5recs 100).map (fun e => e.2.2)).sum = 100 := by
  have hpts : ∀ r ∈ c5recs.filter (pollFilterNation "Primary"),
      ∃ n, r.getD "Points" (.int 0) = Value.int n := by
    intro r hr
    rw [show c5recs.filter (pollFilterNation "Primary") = c5recs from rfl] at hr
    rcases List.mem_cons.mp hr with h | h
    · exact ⟨30, by rw [h]; rfl⟩
    · rcases List.mem_cons.mp h with h' | h'
      · exact ⟨70, by rw [h']; rfl⟩
      · cases h'
  have hpoll : poll "nation" "Primary" c5recs = some (.results (pollEntries c5recs 100)) := by
    have hT : sumPoints (c5recs.filter (pollFilterNation "Primary")) = some 100 := by decide
    rw [poll_nation_eval "Primary" c5recs 100 hT,
      show c5recs.filter (pollFilterNation "Primary") = c5recs from rfl,
      if_neg (show ¬ c5recs = [] by decide), if_neg (show ¬ (100 : Int) = 0 by decide)]
  exact ⟨hpoll, ((c5_poll_nation "Primary" c5recs hpts).2.2.2 _ hpoll).2⟩

theorem pyLower_ne_empty (s : String) (h : s ≠ "") : pyLower s ≠ "" := by
  obtain ⟨l⟩ := s
  intro hc
  apply h
  have hdata : l.map Char.toLower = [] := congrArg String.data hc
  have hnil : l = [] := List.map_eq_nil_iff.mp hdata
  rw [hnil]

/-- C9: `add_signup` writes no `State` column, so the `State` field read by
a state-scoped poll defaults to `""`; hence over a table populated solely
by the signup flow, every state-scoped poll with a non-empty scope other
than `"nation"` reports that there are no candidates. -/
theorem c9_state_poll_excludes_signups (scope phase : String) (recs : List Record)
    (hscope : scope ≠ "") (hnat : pyLower scope ≠ "nation")
    (hshape : ∀ r ∈ recs, ∃ uidVal name seatId party ph office,
      r = signupRecord uidVal name seatId party ph office) :
    poll scope phase recs = some .noCandidates := by
  unfold poll
  rw [if_neg (show ¬ (pyLower scope == "nation") = true from fun h => hnat (eq_of_beq h))]
  have hfilter : recs.filter (pollFilterState scope phase) = [] := by
    rw [List.filter_eq_nil_iff]
    intro r hr
    obtain ⟨u, n, s, p, ph, o, rfl⟩ := hshape r hr
    unfold pollFilterState
    simp only [Bool.and_eq_true, not_and]
    intro hstate
    exfalso
    have hgd : (signupRecord u n s p ph o).getD "State" (.str "") = .str "" := rfl
    rw [hgd] at hstate
    exact pyLower_ne_empty scope hscope (eq_of_beq hstate).symm
  rw [hfilter]
  rfl

/-- Witness for C9: one fresh signup, polled with scope `"Austin"`. -/
theorem c9_state_poll_excludes_signups_witness :
    poll "Austin" "Primary"
        [signupRecord (.int 42) "Ava" (.str "SEN-AU-1") "Independent" "Primary" (.str "Senate")] =
      some .noCandidates := by
  refine c9_state_poll_excludes_signups "Austin" "Primary" _ (by decide) (by decide) ?_
  intro r hr
  rcases List.mem_cons.mp hr with h | h
  · exact ⟨.int 42, "Ava", .str "SEN-AU-1", "Independent", "Primary", .str "Senate", h⟩
  · cases h

/-! ## Winner transfer (`transfer_winners`)

`transfer_winners` reads the `All Winners` records once, then for every
signup row with `Winner == "Winner"` checks that stale list for a row with
the same `User ID` and `Seat ID` before appending a denormalized winner
row.  The rows it appends — and the header row it creates on an empty
sheet — carry the columns `Year, Office, State, District, Candidate,
Party, Points, Votes, Corruption, Final Score, Winner` and in particular
no `User ID` or `Seat ID` column. -/

/-- Python `c in s` for a single character. -/
def pyContains (s : String) (c : Char) : Bool := s.data.contains c

/-- Python `s.split(sep)` for a one-character separator, on the character
list. -/
def pySplit (c : Char) : List Char → List (List Char)
  | [] => [[]]
  | x :: xs =>
    match pySplit c xs with
    | [] => [[]]
    | h :: t => if x = c then [] :: h :: t else (x :: h) :: t

/-- Python `s.split(sep)` for a one-character separator. -/
def pySplitOn (s : String) (c : Char) : List String := (pySplit c s.data).map String.mk

/-- District parsing: `"District " + seat_id.split("-")[-1]` when the seat
id contains a hyphen and splits into at least three parts.  `none` models
the `TypeError` from `"-" in seat_id` when the cell is an integer. -/
def districtOf : Value → Option String
  | .int _ => none
  | .str s =>
    some (if pyContains s '-' then
            (let parts := pySplitOn s '-'
             if 3 ≤ parts.length then "District " ++ parts.getLastD "" else "")
          else "")

/-- The winner row appended for one signup record, as read back under the
`All Winners` header row. -/
def winnerRow (cycleYear : Int) (r : Record) : Option Record :=
  (districtOf (r.getD "Seat ID" (.str ""))).map fun district =>
    [("Year", .int cycleYear), ("Office", r.getD "Office" (.str "")),
     ("State", r.getD "State" (.str "")), ("District", .str district),
     ("Candidate", r.getD "Name" (.str "")), ("Party", r.getD "Party" (.str "")),
     ("Points", r.getD "Points" (.int 0)), ("Votes", .int 0),
     ("Corruption", r.getD "Corruption" (.int 0)),
     ("Final Score", r.getD "Points" (.int 0)), ("Winner", .str "Yes")]

/-- The duplicate-transfer test: some already-read winner record has the
same `User ID` (compared via `str`) and the same `Seat ID`. -/
def alreadyExists (winnersRecords : List Record) (userId seatId : Value) : Bool :=
  winnersRecords.any fun w =>
    pyStr (w.getD "User ID" (.str "")) == pyStr userId &&
      w.getD "Seat ID" (.str "") == seatId

/-- `transfer_winners`: returns the resulting `All Winners` record list
(the initial records plus every appended row).  The existence check always
runs against the list read before the loop. -/
def transfer_winners (cycleYear : Int) (signups winnersRecords : List Record) :
    Option (List Record) :=
  signups.foldl
    (fun acc r =>
      acc.bind fun ws =>
        if r.getD "Winner" (.str "") == .str "Winner" then
          if alreadyExists winnersRecords (r.getD "User ID" (.str ""))
              (r.getD "Seat ID" (.str "")) then some ws
          else (winnerRow cycleYear r).map fun row => ws ++ [row]
        else some ws)
    (some winnersRecords)

/-- The signup row used to exercise C1: a declared winner. -/
def c1sig : Record :=
  [("User ID", .int 1), ("Name", .str "Ava"), ("Seat ID", .str "REP-CO-1"),
   ("Party", .str "Republicans"), ("Phase", .str "Primary"),
   ("Office", .str "Representative"), ("Corruption", .int 0), ("Stamina", .int 90),
   ("Points", .int 12), ("Winner", .str "Winner")]

/-- The winner row `transfer_winners` appends for `c1sig`. -/
def c1row : Record :=
  [("Year", .int 2024), ("Office", .str "Representative"), ("State", .str ""),
   ("District", .str "District 1"), ("Candidate", .str "Ava"),
   ("Party", .str "Republicans"), ("Points", .int 12), ("Votes", .int 0),
   ("Corruption", .int 0), ("Final Score", .int 12), ("Winner", .str "Yes")]

/-- C1 fails on the code: running `transfer_winners` twice over one
declared winner appends the same winner row twice.  The appended rows have
no `User ID` or `Seat ID` columns, so the existence re-scan reads `""` for
both fields of every winner record and never matches a real user id: the
second run transfers the same (userId, seatId) signup again. -/
theorem c1_transfer_winners_duplicates :
    transfer_winners 2024 [c1sig] [] = some [c1row] ∧
    transfer_winners 2024 [c1sig] [c1row] = some [c1row, c1row] ∧
    c1row.getD "User ID" (.str "") = .str "" ∧
    c1row.getD "Seat ID" (.str "") = .str "" ∧
    pyStr (c1sig.getD "User ID" (.str "")) = "1" ∧
    c1sig.getD "Seat ID" (.str "") = .str "REP-CO-1" := by
  refine ⟨?_, ?_, rfl, rfl, rfl, rfl⟩ <;> decide

/-! ## Tally (`tally_winners`)

`tally_winners` groups the non-terminal signup rows by `(Seat ID, Party)`,
picks `max(candidates, key=points)` per group (Python's `max` keeps the
first maximal element), and then writes `"Winner"` into every row of the
group whose `Name` equals the chosen winner's `Name` and `"Loser"` into
the rest.  The in-memory `records` list is never re-read between groups,
and the groups partition the non-terminal rows, so the final table is
determined row by row.  A string `Points` cell among two or more compared
candidates raises a `TypeError` in Python and aborts the command
mid-write; the model returns `none` for the whole run in that case, and
the tally theorems restrict to integer `Points` cells, where no such abort
happens. -/

/-- A row is terminal when its `Winner` cell is `"Withdrawn"`, `"Winner"`
or `"Loser"`; `tally_winners` skips such rows entirely. -/
def isTerminal (r : Record) : Bool :=
  r.getD "Winner" (.str "") == .str "Withdrawn" ||
    r.getD "Winner" (.str "") == .str "Winner" ||
    r.getD "Winner" (.str "") == .str "Loser"

/-- The grouping key `(seat_id, party)`. -/
def raceKey (r : Record) : Value × Value :=
  (r.getD "Seat ID" (.str ""), r.getD "Party" (.str ""))

/-- The group (race) a non-terminal row belongs to: the non-terminal rows
with its key, in scan order. -/
def groupOf (recs : List Record) (r : Record) : List Record :=
  recs.filter fun x => !isTerminal x && (raceKey x == raceKey r)

/-- `max(candidates, key=lambda x: x.get("Points", 0))`, folded left with
the running best: a later candidate replaces the best only when strictly
greater, so the first maximal element wins.  `none` on a non-integer
comparison. -/
def pyMaxGo (best : Record) : List Record → Option Record
  | [] => some best
  | r :: rest =>
    match best.getD "Points" (.int 0), r.getD "Points" (.int 0) with
    | .int b, .int p => pyMaxGo (if b < p then r else best) rest
    | _, _ => none

/-- Python `max` over a candidate list (never called on an empty group). -/
def pyMaxByPoints : List Record → Option Record
  | [] => none
  | c :: rest => pyMaxGo c rest

/-- The integer points of a record (used only where `Points` is an
integer). -/
def intPoints (r : Record) : Prop := ∃ n, r.getD "Points" (.int 0) = Value.int n

/-- `w` is the first-encountered row of maximal points in `g`: everything
before its occurrence is strictly smaller and nothing in `g` is larger. -/
def FirstMax (g : List Record) (w : Record) : Prop :=
  (∀ x ∈ g, pointsD x ≤ pointsD w) ∧
  ∃ g₁ g₂, g = g₁ ++ w :: g₂ ∧ ∀ x ∈ g₁, pointsD x < pointsD w

theorem pointsD_eq (r : Record) (n : Int) (h : r.getD "Points" (.int 0) = Value.int n) :
    pointsD r = n := by
  unfold pointsD
  rw [h]

theorem pyMaxGo_firstMax (l : List Record) (best : Record)
    (hb : intPoints best) (hl : ∀ x ∈ l, intPoints x) :
    ∃ w, pyMaxGo best l = some w ∧ FirstMax (best :: l) w := by
  induction l generalizing best with
  | nil =>
    refine ⟨best, rfl, ?_, [], [], rfl, ?_⟩
    · intro x hx
      rcases List.mem_singleton.mp hx with rfl
      exact le_refl _
    · intro x hx; cases hx
  | cons r rest ih =>
    obtain ⟨b, hbp⟩ := hb
    obtain ⟨p, hrp⟩ := hl r (by simp)
    have hrest : ∀ x ∈ rest, intPoints x := fun x hx => hl x (by simp [hx])
    by_cases hlt : b < p
    · obtain ⟨w, hw, hmax, g₁, g₂, hsplit, hstrict⟩ := ih r ⟨p, hrp⟩ hrest
      have hbw : pointsD best < pointsD w := by
        calc pointsD best = b := pointsD_eq best b hbp
          _ < p := hlt
          _ = pointsD r := (pointsD_eq r p hrp).symm
          _ ≤ pointsD w := hmax r (by simp)
      refine ⟨w, ?_, ?_, best :: g₁, g₂, by rw [List.cons_append, hsplit], ?_⟩
      · unfold pyMaxGo
        rw [hbp, hrp]
        have hgo : pyMaxGo (if b < p then r else best) rest = some w := by
          rw [if_pos hlt]; exact hw
        exact hgo
      · intro x hx
        rcases List.mem_cons.mp hx with h | hx'
        · rw [h]; exact le_of_lt hbw
        · exact hmax x hx'
      · intro x hx
        rcases List.mem_cons.mp hx with h | hx'
        · rw [h]; exact hbw
        · exact hstrict x hx'
    · obtain ⟨w, hw, hmax, g₁, g₂, hsplit, hstrict⟩ := ih best ⟨b, hbp⟩ hrest
      have hple : pointsD r ≤ pointsD best := by
        rw [pointsD_eq r p hrp, pointsD_eq best b hbp]
        omega
      have hmaxAll : ∀ x ∈ best :: r :: rest, pointsD x ≤ pointsD w := by
        intro x hx
        rcases List.mem_cons.mp hx with h | hx'
        · rw [h]; exact hmax best (by simp)
        · rcases List.mem_cons.mp hx' with h | hx''
          · rw [h]; exact hple.trans (hmax best (by simp))
          · exact hmax x (by simp [hx''])
      refine ⟨w, ?_, hmaxAll, ?_⟩
      · unfold pyMaxGo
        rw [hbp, hrp]
        have hgo : pyMaxGo (if b < p then r else best) rest = some w := by
          rw [if_neg hlt]; exact hw
        exact hgo
      · rcases g₁ with _ | ⟨g₀, g₁'⟩
        · rw [List.nil_append] at hsplit
          obtain ⟨hwbest, -⟩ := List.cons.inj hsplit
          refine ⟨[], r :: rest, ?_, ?_⟩
          · rw [List.nil_append, hwbest]
          · intro x hx; cases hx
        · rw [List.cons_append] at hsplit
          obtain ⟨hbg, hrest'⟩ := List.cons.inj hsplit
          refine ⟨best :: r :: g₁', g₂, ?_, ?_⟩
          · rw [List.cons_append, List.cons_append, hrest']
          · intro x hx
            rcases List.mem_cons.mp hx with h | hx'
            · rw [h, hbg]
              exact hstrict g₀ (by simp)
            · rcases List.mem_cons.mp hx' with h | hx''
              · rw [h]
                calc pointsD r ≤ pointsD best := hple
                  _ < pointsD w := by rw [hbg]; exact hstrict g₀ (by simp)
              · exact hstrict x (by simp [hx''])

theorem pyMaxByPoints_firstMax (g : List Record) (hg : g ≠ [])
    (h : ∀ x ∈ g, intPoints x) :
    ∃ w, pyMaxByPoints g = some w ∧ FirstMax g w := by
  rcases g with _ | ⟨c, rest⟩
  · exact absurd rfl hg
  · exact pyMaxGo_firstMax rest c (h c (by simp)) (fun x hx => h x (by simp [hx]))

/-- The per-row effect of one `tally_winners` run over the table `recs`:
terminal rows are untouched; a non-terminal row gets `"Winner"` written to
its `Winner` column when its `Name` equals the group winner's `Name`, and
`"Loser"` otherwise. -/
def tallyAssign (recs : List Record) (r : Record) : Option Record :=
  if isTerminal r then some r
  else
    match pyMaxByPoints (groupOf recs r) with
    | none => none
    | some w =>
      some (r.set "Winner"
        (if r.getD "Name" (.str "") == w.getD "Name" (.str "") then .str "Winner"
         else .str "Loser"))

/-- Apply `tallyAssign` to every row of `l` (with groups computed against
the stale `recs`). -/
def tallyList (recs : List Record) : List Record → Option (List Record)
  | [] => some []
  | r :: rest =>
    match tallyAssign recs r, tallyList recs rest with
    | some r', some rest' => some (r' :: rest')
    | _, _ => none

/-- `tally_winners`: the new `All Signups` table after an admin tally. -/
def tally_winners (recs : List Record) : Option (List Record) :=
  tallyList recs recs

theorem tallyList_pointwise (recs l out : List Record) (h : tallyList recs l = some out) :
    out.length = l.length ∧
    ∀ j (hj : j < l.length) (hj' : j < out.length),
      tallyAssign recs (l.get ⟨j, hj⟩) = some (out.get ⟨j, hj'⟩) := by
  induction l generalizing out with
  | nil =>
    cases h
    exact ⟨rfl, fun j hj _ => absurd hj (Nat.not_lt_zero j)⟩
  | cons r rest ih =>
    unfold tallyList at h
    rcases ha : tallyAssign recs r with _ | r' <;> rw [ha] at h
    · cases h
    · rcases hrest : tallyList recs rest with _ | rest' <;> rw [hrest] at h
      · cases h
      · cases h
        obtain ⟨hlen, hpt⟩ := ih rest' hrest
        refine ⟨by simp [hlen], ?_⟩
        intro j hj hj'
        cases j with
        | zero => exact ha
        | succ j' =>
          exact hpt j' (Nat.lt_of_succ_lt_succ hj) (Nat.lt_of_succ_lt_succ hj')

theorem tallyList_total (recs l : List Record)
    (h : ∀ r ∈ l, ∃ r', tallyAssign recs r = some r') :
    ∃ out, tallyList recs l = some out := by
  induction l with
  | nil => exact ⟨[], rfl⟩
  | cons r rest ih =>
    obtain ⟨r', hr'⟩ := h r (by simp)
    obtain ⟨rest', hrest'⟩ := ih (fun x hx => h x (by simp [hx]))
    exact ⟨r' :: rest', by unfold tallyList; rw [hr', hrest']⟩

theorem tallyList_of_terminal (recs l : List Record)
    (h : ∀ r ∈ l, isTerminal r = true) :
    tallyList recs l = some l := by
  induction l with
  | nil => rfl
  | cons r rest ih =>
    have hr : tallyAssign recs r = some r := by
      unfold tallyAssign
      rw [if_pos (h r (by simp))]
    unfold tallyList
    rw [hr, ih (fun x hx => h x (by simp [hx]))]

theorem tallyAssign_total (recs : List Record) (r : Record) (hr : r ∈ recs)
    (hpts : ∀ x ∈ recs, intPoints x) :
    ∃ r', tallyAssign recs r = some r' := by
  rcases ht : isTerminal r with _ | _
  · have hmem : r ∈ groupOf recs r := by
      unfold groupOf
      rw [List.mem_filter]
      exact ⟨hr, by simp [ht]⟩
    obtain ⟨w, hw, -⟩ := pyMaxByPoints_firstMax (groupOf recs r)
      (List.ne_nil_of_mem hmem)
      (fun x hx => hpts x (List.mem_filter.mp hx).1)
    refine ⟨r.set "Winner"
      (if r.getD "Name" (.str "") == w.getD "Name" (.str "") then .str "Winner"
       else .str "Loser"), ?_⟩
    unfold tallyAssign
    rw [if_neg (by simp [ht]), hw]
  · exact ⟨r, by unfold tallyAssign; rw [if_pos ht]⟩

/-- C7: `tally_winners` is idempotent: every row of its output is terminal
(either untouched terminal or freshly marked `"Winner"`/`"Loser"`), so a
second run with no intervening mutation writes nothing and returns the
same assignment. -/
theorem c7_tally_winners_idempotent (recs out : List Record)
    (h : tally_winners recs = some out) :
    tally_winners out = some out := by
  obtain ⟨hlen, hpt⟩ := tallyList_pointwise recs recs out h
  have hterm : ∀ r' ∈ out, isTerminal r' = true := by
    intro r' hr'
    obtain ⟨⟨j, hj'⟩, hget⟩ := List.mem_iff_get.mp hr'
    have hj : j < recs.length := hlen ▸ hj'
    have hassign := hpt j hj hj'
    unfold tallyAssign at hassign
    rcases ht : isTerminal (recs.get ⟨j, hj⟩) with _ | _ <;> rw [ht] at hassign
    · simp only [Bool.false_eq_true, if_false] at hassign
      rcases hm : pyMaxByPoints (groupOf recs (recs.get ⟨j, hj⟩)) with _ | w <;>
        rw [hm] at hassign
      · cases hassign
      · simp only at hassign
        have hout : out.get ⟨j, hj'⟩ =
            (recs.get ⟨j, hj⟩).set "Winner"
              (if (recs.get ⟨j, hj⟩).getD "Name" (.str "") == w.getD "Name" (.str "")
               then .str "Winner" else .str "Loser") := (Option.some.inj hassign).symm
        rw [← hget, hout]
        by_cases hb : ((recs.get ⟨j, hj⟩).getD "Name" (.str "") ==
            w.getD "Name" (.str "")) = true
        · rw [if_pos hb]
          simp [isTerminal, Record.getD_set_self]
        · rw [if_neg hb]
          simp [isTerminal, Record.getD_set_self]
    · simp only [if_true] at hassign
      have : out.get ⟨j, hj'⟩ = recs.get ⟨j, hj⟩ := (Option.some.inj hassign).symm
      rw [← hget, this]
      exact ht
  unfold tally_winners
  exact tallyList_of_terminal out out hterm

/-- Witness for C7: a one-row table is tallied, then tallied again. -/
theorem c7_tally_winners_idempotent_witness :
    tally_winners [signupRecord (.int 42) "Ava" (.str "SEN-AU-1") "Independent" "Primary"
        (.str "Senate")] =
      some [(signupRecord (.int 42) "Ava" (.str "SEN-AU-1") "Independent" "Primary"
        (.str "Senate")).set "Winner" (.str "Winner")] ∧
    tally_winners [(signupRecord (.int 42) "Ava" (.str "SEN-AU-1") "Independent" "Primary"
        (.str "Senate")).set "Winner" (.str "Winner")] =
      some [(signupRecord (.int 42) "Ava" (.str "SEN-AU-1") "Independent" "Primary"
        (.str "Senate")).set "Winner" (.str "Winner")] := by
  have h : tally_winners [signupRecord (.int 42) "Ava" (.str "SEN-AU-1") "Independent" "Primary"
      (.str "Senate")] =
      some [(signupRecord (.int 42) "Ava" (.str "SEN-AU-1") "Independent" "Primary"
        (.str "Senate")).set "Winner" (.str "Winner")] := by decide
  exact ⟨h, c7_tally_winners_idempotent _ _ h⟩

/-- Two same-race candidates who share the name `"Ava"` but not their
points. -/
def c6rec1 : Record :=
  [("User ID", .int 1), ("Name", .str "Ava"), ("Seat ID", .str "S1"),
   ("Party", .str "Democrats"), ("Points", .int 5), ("Winner", .str "")]

def c6rec2 : Record :=
  [("User ID", .int 2), ("Name", .str "Ava"), ("Seat ID", .str "S1"),
   ("Party", .str "Democrats"), ("Points", .int 3), ("Winner", .str "")]

/-- C6 fails as stated: the write pass matches rows by `Name`, so when two
candidates of one `(Seat ID, Party)` group share a name, both are marked
`"Winner"` even though only one has maximal points — the group does not
get exactly one Winner with every other row a Loser. -/
theorem c6_tally_winners_counterexample :
    raceKey c6rec1 = raceKey c6rec2 ∧
    isTerminal c6rec1 = false ∧ isTerminal c6rec2 = false ∧
    pointsD c6rec2 < pointsD c6rec1 ∧
    tally_winners [c6rec1, c6rec2] =
      some [c6rec1.set "Winner" (.str "Winner"), c6rec2.set "Winner" (.str "Winner")] := by
  decide

/-- C6 (amended): provided candidate names are pairwise distinct within
each group of non-terminal rows sharing a `(Seat ID, Party)` key,
`tally_winners` leaves terminal rows untouched and, in each group, marks
exactly the first-encountered row of maximal points `"Winner"` and every
other row of the group `"Loser"`. -/
theorem c6_tally_winners_groups (recs : List Record)
    (hpts : ∀ r ∈ recs, intPoints r)
    (hnames : ∀ r ∈ recs, ∀ r' ∈ recs, isTerminal r = false → isTerminal r' = false →
      raceKey r = raceKey r' → r.getD "Name" (.str "") = r'.getD "Name" (.str "") → r = r') :
    ∃ out, tally_winners recs = some out ∧ out.length = recs.length ∧
      ∀ j (hj : j < recs.length) (hj' : j < out.length),
        (isTerminal (recs.get ⟨j, hj⟩) = true → out.get ⟨j, hj'⟩ = recs.get ⟨j, hj⟩) ∧
        (isTerminal (recs.get ⟨j, hj⟩) = false →
          ∃ w, FirstMax (groupOf recs (recs.get ⟨j, hj⟩)) w ∧
            out.get ⟨j, hj'⟩ = (recs.get ⟨j, hj⟩).set "Winner"
              (if recs.get ⟨j, hj⟩ = w then .str "Winner" else .str "Loser")) := by
  obtain ⟨out, hout⟩ := tallyList_total recs recs
    (fun r hr => tallyAssign_total recs r hr hpts)
  obtain ⟨hlen, hpt⟩ := tallyList_pointwise recs recs out hout
  refine ⟨out, hout, hlen, ?_⟩
  intro j hj hj'
  have hrmem : recs.get ⟨j, hj⟩ ∈ recs := List.get_mem recs j hj
  have hassign := hpt j hj hj'
  constructor
  · intro ht
    unfold tallyAssign at hassign
    rw [if_pos ht] at hassign
    exact (Option.some.inj hassign).symm
  · intro ht
    have hmem : recs.get ⟨j, hj⟩ ∈ groupOf recs (recs.get ⟨j, hj⟩) := by
      unfold groupOf
      rw [List.mem_filter]
      refine ⟨hrmem, ?_⟩
      simp only [Bool.and_eq_true, Bool.not_eq_true']
      exact ⟨ht, by simp⟩
    obtain ⟨w, hw, hfm⟩ := pyMaxByPoints_firstMax (groupOf recs (recs.get ⟨j, hj⟩))
      (List.ne_nil_of_mem hmem) (fun x hx => hpts x (List.mem_filter.mp hx).1)
    have hwgrp : w ∈ groupOf recs (recs.get ⟨j, hj⟩) := by
      obtain ⟨g₁, g₂, hsplit, -⟩ := hfm.2
      rw [hsplit]
      exact List.mem_append.mpr (Or.inr (by simp))
    have hwcond := List.mem_filter.mp hwgrp
    have hwterm : isTerminal w = false := by
      have hc := hwcond.2
      rw [Bool.and_eq_true] at hc
      rw [← Bool.not_eq_true']
      exact hc.1
    have hwkey : raceKey w = raceKey (recs.get ⟨j, hj⟩) := by
      have hc := hwcond.2
      rw [Bool.and_eq_true] at hc
      exact eq_of_beq hc.2
    have hiff : ((recs.get ⟨j, hj⟩).getD "Name" (.str "") ==
        w.getD "Name" (.str "")) = true ↔ recs.get ⟨j, hj⟩ = w := by
      constructor
      · intro hb
        exact hnames _ hrmem w hwcond.1 ht hwterm hwkey.symm (eq_of_beq hb)
      · intro he
        rw [he]
        simp
    unfold tallyAssign at hassign
    rw [if_neg (by rw [ht]; simp), hw] at hassign
    have houtj : out.get ⟨j, hj'⟩ = (recs.get ⟨j, hj⟩).set "Winner"
        (if (recs.get ⟨j, hj⟩).getD "Name" (.str "") == w.getD "Name" (.str "")
         then .str "Winner" else .str "Loser") := (Option.some.inj hassign).symm
    refine ⟨w, hfm, ?_⟩
    rw [houtj]
    congr 1
    by_cases hb : ((recs.get ⟨j, hj⟩).getD "Name" (.str "") ==
        w.getD "Name" (.str "")) = true
    · rw [if_pos hb, if_pos (hiff.mp hb)]
    · rw [if_neg hb, if_neg (fun he => hb (hiff.mpr he))]

/-- Distinct-name candidates for the C6 witness. -/
def c6w1 : Record :=
  [("User ID", .int 1), ("Name", .str "Ava"), ("Seat ID", .str "S1"),
   ("Party", .str "Democrats"), ("Points", .int 5), ("Winner", .str "")]

def c6w2 : Record :=
  [("User ID", .int 2), ("Name", .str "Bob"), ("Seat ID", .str "S1"),
   ("Party", .str "Democrats"), ("Points", .int 3), ("Winner", .str "")]

/-- Witness for the amended C6: with distinct names, the higher-scoring
candidate is the sole Winner and the other is the Loser. -/
theorem c6_tally_winners_groups_witness :
    (∀ r ∈ [c6w1, c6w2], ∀ r' ∈ [c6w1, c6w2], isTerminal r = false → isTerminal r' = false →
      raceKey r = raceKey r' → r.getD "Name" (.str "") = r'.getD "Name" (.str "") → r = r') ∧
    tally_winners [c6w1, c6w2] =
      some [c6w1.set "Winner" (.str "Winner"), c6w2.set "Winner" (.str "Loser")] := by
  have hpts : ∀ r ∈ [c6w1, c6w2], intPoints r := by
    intro r hr
    rcases List.mem_cons.mp hr with h | h
    · exact ⟨5, by rw [h]; rfl⟩
    · rcases List.mem_cons.mp h with h' | h'
      · exact ⟨3, by rw [h']; rfl⟩
      · cases h'
  have hnames : ∀ r ∈ [c6w1, c6w2], ∀ r' ∈ [c6w1, c6w2],
      isTerminal r = false → isTerminal r' = false →
      raceKey r = raceKey r' → r.getD "Name" (.str "") = r'.getD "Name" (.str "") → r = r' := by
    decide
  obtain ⟨out, hout, hlen, -⟩ := c6_tally_winners_groups [c6w1, c6w2] hpts hnames
  exact ⟨hnames, by decide⟩

/-! ## Header cleaning (`get_all_records_safe`)

Pass one replaces each blank (after stripping) header cell by the
positional placeholder `Column_{i+1}`; pass two walks the cleaned list
keeping a per-name occurrence count and renames the k-th repeat of `h`
(k ≥ 1) to `h_k`.  The count dict of the source is represented by the
prefix of already-processed names: the dict's entry for `h` is exactly the
number of occurrences of `h` in that prefix.  The cleaned headers are then
used as the keys of the row mappings. -/

/-- Python `s.strip()`. -/
def pyStrip (s : String) : String :=
  ⟨((s.data.dropWhile Char.isWhitespace).reverse.dropWhile Char.isWhitespace).reverse⟩

/-- Pass one from 0-based column index `i`. -/
def cleanFrom (i : Nat) : List String → List String
  | [] => []
  | h :: rest =>
    (if pyStrip h ≠ "" then pyStrip h else "Column_" ++ toString (i + 1)) ::
      cleanFrom (i + 1) rest

/-- The cleaned (pass-one) headers of a raw header row. -/
def cleanedHeaders (row : List String) : List String := cleanFrom 0 row

/-- The name a header cell receives when `n` earlier cells already had the
same cleaned name. -/
def sufName (h : String) (n : Nat) : String :=
  if n = 0 then h else h ++ "_" ++ toString n

/-- Pass two, with `prev` the already-processed cleaned names. -/
def dedupeFrom (prev : List String) : List String → List String
  | [] => []
  | h :: rest => sufName h (prev.count h) :: dedupeFrom (prev ++ [h]) rest

/-- The normalized headers `get_all_records_safe` ends up using. -/
def finalHeaders (row : List String) : List String := dedupeFrom [] (cleanedHeaders row)

/-- No suffix collision: on the cleaned names, `sufName` with counters up
to the row length is injective.  This rules out a raw header like `A_1`
colliding with the renamed second `A`. -/
def sufOk (cs : List String) : Prop :=
  ∀ h ∈ cs, ∀ h' ∈ cs, ∀ m, m ≤ cs.length → ∀ n, n ≤ cs.length →
    sufName h m = sufName h' n → h = h' ∧ m = n

instance (cs : List String) : Decidable (sufOk cs) := by
  unfold sufOk
  infer_instance

theorem length_dedupeFrom (l prev : List String) :
    (dedupeFrom prev l).length = l.length := by
  induction l generalizing prev with
  | nil => rfl
  | cons h rest ih => simp [dedupeFrom, ih]

theorem length_cleanFrom (l : List String) (i : Nat) :
    (cleanFrom i l).length = l.length := by
  induction l generalizing i with
  | nil => rfl
  | cons h rest ih => simp [cleanFrom, ih]

theorem append_str_ne_empty (s t : String) (h : s ≠ "") : s ++ t ≠ "" := by
  obtain ⟨l⟩ := s
  obtain ⟨m⟩ := t
  intro hc
  apply h
  have hdata : l ++ m = [] := congrArg String.data hc
  have hl : l = [] := (List.append_eq_nil.mp hdata).1
  rw [hl]

theorem cleanFrom_ne_empty (l : List String) (i : Nat) :
    ∀ h ∈ cleanFrom i l, h ≠ "" := by
  induction l generalizing i with
  | nil => intro h hh; cases hh
  | cons a rest ih =>
    intro h hh
    simp only [cleanFrom] at hh
    rcases List.mem_cons.mp hh with hh0 | hh'
    · rw [hh0]
      by_cases hs : pyStrip a ≠ ""
      · rw [if_pos hs]; exact hs
      · rw [if_neg hs]
        exact append_str_ne_empty "Column_" _ (by decide)
    · exact ih (i + 1) h hh'

theorem dedupeFrom_ne_empty (l : List String) (prev : List String)
    (hl : ∀ h ∈ l, h ≠ "") : ∀ x ∈ dedupeFrom prev l, x ≠ "" := by
  induction l generalizing prev with
  | nil => intro x hx; cases hx
  | cons a rest ih =>
    intro x hx
    simp only [dedupeFrom] at hx
    rcases List.mem_cons.mp hx with hx0 | hx'
    · rw [hx0]
      unfold sufName
      by_cases hn : prev.count a = 0
      · rw [if_pos hn]; exact hl a (by simp)
      · rw [if_neg hn]
        exact append_str_ne_empty (a ++ "_") _
          (append_str_ne_empty a "_" (hl a (by simp)))
    · exact ih (prev ++ [a]) (fun h hh => hl h (by simp [hh])) x hx'

theorem dedupeFrom_get? (l : List String) (prev : List String) (j : Nat) (x : String)
    (hx : l.get? j = some x) :
    (dedupeFrom prev l).get? j = some (sufName x ((prev ++ l.take j).count x)) := by
  induction l generalizing prev j with
  | nil => cases hx
  | cons h rest ih =>
    cases j with
    | zero =>
      have hhx : h = x := Option.some.inj hx
      subst hhx
      simp [dedupeFrom]
    | succ j' =>
      have hx' : rest.get? j' = some x := hx
      have hassoc : (prev ++ [h]) ++ rest.take j' = prev ++ (h :: rest.take j') := by
        rw [List.append_assoc, List.singleton_append]
      calc (dedupeFrom prev (h :: rest)).get? (j' + 1)
          = (dedupeFrom (prev ++ [h]) rest).get? j' := rfl
        _ = some (sufName x (((prev ++ [h]) ++ rest.take j').count x)) := ih (prev ++ [h]) j' hx'
        _ = some (sufName x ((prev ++ (h :: rest).take (j' + 1)).count x)) := by
            rw [hassoc, List.take_succ_cons]

theorem count_take_lt (cs : List String) (x : String) (j k : Nat) (hjk : j < k)
    (hx : cs.get? j = some x) :
    (cs.take j).count x < (cs.take k).count x := by
  have hx' : cs[j]? = some x := by rwa [← List.get?_eq_getElem?]
  have h1 : cs.take (j + 1) = cs.take j ++ [x] := by
    rw [List.take_succ, hx']
    rfl
  have h2 : (cs.take (j + 1)).count x = (cs.take j).count x + 1 := by
    rw [h1, List.count_append]
    simp
  have h3 : List.Sublist (cs.take (j + 1)) (cs.take k) := by
    have heq : cs.take (j + 1) = (cs.take k).take (j + 1) := by
      rw [List.take_take, Nat.min_eq_left hjk]
    rw [heq]
    exact List.take_sublist _ _
  have h4 := h3.count_le x
  omega

theorem count_take_le_length (cs : List String) (x : String) (j : Nat) :
    (cs.take j).count x ≤ cs.length :=
  le_trans (List.count_le_length _ _)
    (le_trans (le_of_eq (List.length_take _ _)) (Nat.min_le_right _ _))

theorem dedupeFrom_nodup (cs : List String) (hok : sufOk cs) :
    (dedupeFrom [] cs).Nodup := by
  rw [List.nodup_iff_injective_get]
  rintro ⟨j, hj⟩ ⟨k, hk⟩ heq
  have hlen : (dedupeFrom [] cs).length = cs.length := length_dedupeFrom cs []
  have hj' : j < cs.length := hlen ▸ hj
  have hk' : k < cs.length := hlen ▸ hk
  have hgj : cs.get? j = some (cs.get ⟨j, hj'⟩) := List.get?_eq_get hj'
  have hgk : cs.get? k = some (cs.get ⟨k, hk'⟩) := List.get?_eq_get hk'
  have hdj := dedupeFrom_get? cs [] j _ hgj
  have hdk := dedupeFrom_get? cs [] k _ hgk
  rw [List.get?_eq_get hj] at hdj
  rw [List.get?_eq_get hk] at hdk
  have hvj : (dedupeFrom [] cs).get ⟨j, hj⟩ =
      sufName (cs.get ⟨j, hj'⟩) ((cs.take j).count (cs.get ⟨j, hj'⟩)) := by
    have := Option.some.inj hdj
    rwa [List.nil_append] at this
  have hvk : (dedupeFrom [] cs).get ⟨k, hk⟩ =
      sufName (cs.get ⟨k, hk'⟩) ((cs.take k).count (cs.get ⟨k, hk'⟩)) := by
    have := Option.some.inj hdk
    rwa [List.nil_append] at this
  have hsuf : sufName (cs.get ⟨j, hj'⟩) ((cs.take j).count (cs.get ⟨j, hj'⟩)) =
      sufName (cs.get ⟨k, hk'⟩) ((cs.take k).count (cs.get ⟨k, hk'⟩)) := by
    rw [← hvj, ← hvk, heq]
  obtain ⟨hx, hm⟩ := hok (cs.get ⟨j, hj'⟩) (List.get_mem _ _ _)
    (cs.get ⟨k, hk'⟩) (List.get_mem _ _ _)
    _ (count_take_le_length cs _ j) _ (count_take_le_length cs _ k) hsuf
  rcases Nat.lt_trichotomy j k with hlt | heqjk | hgt
  · exfalso
    have hc := count_take_lt cs (cs.get ⟨j, hj'⟩) j k hlt hgj
    rw [hx] at hm
    rw [hx] at hc
    omega
  · exact Fin.ext heqjk
  · exfalso
    have hc := count_take_lt cs (cs.get ⟨k, hk'⟩) k j hgt hgk
    rw [hx] at hm
    omega

theorem getD_zip_of_nodup (hs : List String) (vs : List Value) (hnd : hs.Nodup)
    (j : Nat) (k : String) (v : Value)
    (hk : hs.get? j = some k) (hv : vs.get? j = some v) :
    Record.getD (hs.zip vs) k (.str "") = v := by
  induction hs generalizing vs j with
  | nil => cases hk
  | cons h hs' ih =>
    rcases vs with _ | ⟨v0, vs'⟩
    · cases hv
    · cases j with
      | zero =>
        have hhk : h = k := Option.some.inj hk
        have hvv : v0 = v := Option.some.inj hv
        subst hhk
        subst hvv
        simp [List.zip_cons_cons, Record.getD]
      | succ j' =>
        have hk' : hs'.get? j' = some k := hk
        have hv' : vs'.get? j' = some v := hv
        have hkmem : k ∈ hs' := List.get?_mem hk'
        have hne : (h == k) = false := by
          rw [beq_eq_false_iff_ne]
          intro hcontra
          exact (List.nodup_cons.mp hnd).1 (hcontra ▸ hkmem)
        have hzip : (h :: hs').zip (v0 :: vs') = (h, v0) :: hs'.zip vs' :=
          List.zip_cons_cons
        rw [hzip]
        unfold Record.getD
        rw [hne]
        simp only [Bool.false_eq_true, if_false]
        exact ih vs' (List.nodup_cons.mp hnd).2 j' hk' hv'

/-- C8 (amended): for every raw header row the normalized headers are all
non-empty and column count is preserved; when the cleaned headers admit no
suffix collision (`sufOk`, as for a row with one blank cell and one
duplicate name such as `["Name", "", "Name"]`), the normalized headers are
also pairwise unique and converting a data row to a mapping with them
loses no column: every header still retrieves its own column's value. -/
theorem c8_header_cleaning (row : List String) :
    (finalHeaders row).length = row.length ∧
    (∀ h ∈ finalHeaders row, h ≠ "") ∧
    (sufOk (cleanedHeaders row) → (finalHeaders row).Nodup) ∧
    (sufOk (cleanedHeaders row) → ∀ vs : List Value, ∀ j (k : String) (v : Value),
      (finalHeaders row).get? j = some k → vs.get? j = some v →
      Record.getD ((finalHeaders row).zip vs) k (.str "") = v) := by
  refine ⟨?_, ?_, ?_, ?_⟩
  · unfold finalHeaders cleanedHeaders
    rw [length_dedupeFrom, length_cleanFrom]
  · exact dedupeFrom_ne_empty _ _ (cleanFrom_ne_empty row 0)
  · intro hok
    exact dedupeFrom_nodup _ hok
  · intro hok vs j k v hk hv
    exact getD_zip_of_nodup _ vs (dedupeFrom_nodup _ hok) j k v hk hv

/-- C8 fails as stated: the raw header row `["A", "A", "A_1"]` normalizes
to `["A", "A_1", "A_1"]` — the renamed second `A` collides with the raw
`A_1`, so the normalized headers are not pairwise unique. -/
theorem c8_header_cleaning_counterexample :
    finalHeaders ["A", "A", "A_1"] = ["A", "A_1", "A_1"] ∧
    ¬ (finalHeaders ["A", "A", "A_1"]).Nodup := by
  constructor
  · decide
  · decide

/-- Witness for C8 at the spec's exemplar row with one blank cell and one
duplicate name. -/
theorem c8_header_cleaning_witness :
    sufOk (cleanedHeaders ["Name", "", "Name"]) ∧
    finalHeaders ["Name", "", "Name"] = ["Name", "Column_2", "Name_1"] ∧
    (finalHeaders ["Name", "", "Name"]).Nodup ∧
    Record.getD ((finalHeaders ["Name", "", "Name"]).zip
        [Value.str "v1", Value.str "v2", Value.str "v3"]) "Name_1" (.str "") = .str "v3" := by
  have hok : sufOk (cleanedHeaders ["Name", "", "Name"]) := by decide
  have h := c8_header_cleaning ["Name", "", "Name"]
  refine ⟨hok, by decide, h.2.2.1 hok, ?_⟩
  exact h.2.2.2 hok [.str "v1", .str "v2", .str "v3"] 2 "Name_1" (.str "v3")
    (by decide) (by decide)
